import Mathlib

/-!
Verification of the markdown code-block extractor of `anvil` (`anvil/commands/sketch.py`).

The central function is `parse_code_blocks`, which runs the Python regex

  ```(?:(\w+)\s+file="([^"]+)"|(\w+):([^\n]+\.(EXT))|([^\n]+\.(EXT)))\n(.*?)```

(with `re.DOTALL`, `EXT` the fixed extension alternation) over a markdown document
via `re.findall`, and then builds a dict from the capture tuples, inserting
`code.strip()` under a filename determined by which alternative matched.

The embedding below reproduces the scan faithfully:
* `re.findall` scans left to right; at each position it attempts a match and on
  failure advances one character; on success it resumes after the match
  (`scanAux`).
* The three header alternatives are tried in order.  For this particular pattern
  each alternative is deterministic: `\w+`, `\s+`, `[^"]+` and `[^\n]+` are
  maximal runs of character classes each followed by a character outside the
  class, so no backtracking inside an alternative can produce a second outcome
  (`matchA`, `matchB`, `matchC`).  If an alternative's header matches but the
  mandatory `\n`-plus-body-plus-closing-fence continuation fails, the regex
  engine falls through to the next alternative; `tryMatchAt` does the same.
* `(.*?)` is lazy under DOTALL: the body extends to the nearest following
  triple backtick (`splitAtFence`).
* The per-match dict updates of the Python loop are `processMatch`; Python dict
  assignment keeps the insertion position of an existing key (`dictSet`).

`create_files` models the file writer of the same module: for each entry it
creates parent directories (outside the `try`) and then writes the file inside a
`try/except` that reports a failure for that entry and continues.
-/

set_option linter.unusedVariables false

namespace AnvilSketch

/-- The backtick character (0x60), written via its code point. -/
def btick : Char := Char.ofNat 96

/-- Python `\s` on the characters that can occur here (ASCII whitespace). -/
def isSpaceChar (c : Char) : Bool :=
  c = ' ' || c = '\t' || c = '\n' || c = '\r' || c = '\x0b' || c = '\x0c'

/-- Python `\w` (ASCII fragment): letters, digits and underscore. -/
def isWordChar (c : Char) : Bool :=
  c.isAlphanum || c = '_'

/-- The character class `[^"]` of the regex. -/
def notQuote (c : Char) : Bool := c ≠ '\"'

/-- The character class `[^\n]` of the regex. -/
def notNewline (c : Char) : Bool := c ≠ '\n'

/-- Does the list start with a triple backtick? -/
def isFenceStart (s : List Char) : Bool :=
  match s with
  | c1 :: c2 :: c3 :: _ => decide (c1 = btick ∧ c2 = btick ∧ c3 = btick)
  | _ => false

/-- Whether a triple backtick occurs anywhere in the list. -/
def containsFence : List Char → Bool
  | [] => false
  | c :: rest => isFenceStart (c :: rest) || containsFence rest

/-- Split the input at the first occurrence of a triple backtick: returns the
text before it and the text after it.  This is the lazy `(.*?)` of the regex
followed by the closing fence: `none` when no closing fence exists. -/
def splitAtFence : List Char → Option (List Char × List Char)
  | [] => none
  | c :: rest =>
    if isFenceStart (c :: rest) then some ([], rest.drop 2)
    else
      match splitAtFence rest with
      | some (b, r) => some (c :: b, r)
      | none => none

/-- Match a literal string (first argument) at the front of the input, returning
the remainder. -/
def dropLit : List Char → List Char → Option (List Char)
  | [], s => some s
  | _ :: _, [] => none
  | l :: ls, c :: cs => if c = l then dropLit ls cs else none

/-- The extension alternation `(tsx?|jsx?|py|css|html|json|md|yml|yaml|toml|sh|txt)`
of the regex, expanded into the strings it can match. -/
def extListAll : List (List Char) :=
  ["ts".data, "tsx".data, "js".data, "jsx".data, "py".data, "css".data,
   "html".data, "json".data, "md".data, "yml".data, "yaml".data, "toml".data,
   "sh".data, "txt".data]

/-- `[^\n]+\.(EXT)` anchored so that the whole of `line` is consumed (in the
regex the group is immediately followed by `\n`): succeeds when `line` ends in
a dot followed by one of the extensions, with a non-empty stem before the dot.
Returns the matched extension. -/
def findExt (line : List Char) : List (List Char) → Option (List Char)
  | [] => none
  | e :: rest =>
    if e.length + 2 ≤ line.length ∧ line.drop (line.length - (e.length + 1)) = '.' :: e
    then some e
    else findExt line rest

/-- One tuple produced by `re.findall` for the 8-group pattern; groups that did
not participate in the match are the empty string, exactly as in Python. -/
structure BlockMatch where
  language_v0 : List Char
  filename_v0 : List Char
  language_colon : List Char
  filename_colon : List Char
  ext_colon : List Char
  filename_direct : List Char
  ext_direct : List Char
  code : List Char
  deriving DecidableEq, Repr

/-- The match tuple of alternative 1: groups 1, 2 and 8 participate. -/
def mkAttr (lang fn body : List Char) : BlockMatch :=
  ⟨lang, fn, [], [], [], [], [], body⟩

/-- The match tuple of alternative 2: groups 3, 4, 5 and 8 participate. -/
def mkColon (lang line e body : List Char) : BlockMatch :=
  ⟨[], [], lang, line, e, [], [], body⟩

/-- The match tuple of alternative 3: groups 6, 7 and 8 participate. -/
def mkDirect (line e body : List Char) : BlockMatch :=
  ⟨[], [], [], [], [], line, e, body⟩

/-- Package the body and the rest of the input once the closing fence has been
located (or fail when it has not). -/
def finishBlock3 (mk : List Char → BlockMatch) :
    Option (List Char × List Char) → Option (BlockMatch × List Char)
  | some (body, rest) => some (mk body, rest)
  | none => none

/-- The mandatory `\n(.*?)\x60\x60\x60` tail of the pattern, shared by the three
alternatives: `r` must start with a newline and the body runs to the nearest
closing fence. -/
def finishBlock (mk : List Char → BlockMatch) (r : List Char) :
    Option (BlockMatch × List Char) :=
  match r with
  | c :: r2 => if c = '\n' then finishBlock3 mk (splitAtFence r2) else none
  | [] => none

/-- Alternative 1, after `file="`: `fn` and `r4` are the split of the input at
the first `"`; the quoted name must be non-empty and followed by `"`. -/
def matchA4 (lang fn r4 : List Char) : Option (BlockMatch × List Char) :=
  if fn.isEmpty then none
  else
    match r4 with
    | c :: r5 => if c = '\"' then finishBlock (mkAttr lang fn) r5 else none
    | [] => none

/-- Alternative 1, the literal `file="`. -/
def matchA3 (lang : List Char) : Option (List Char) → Option (BlockMatch × List Char)
  | some r3 => matchA4 lang (r3.takeWhile notQuote) (r3.dropWhile notQuote)
  | none => none

/-- Alternative 1, after the `\w+` run: requires a non-empty `\s+` run and the
literal `file="`. -/
def matchA2 (lang r1 : List Char) : Option (BlockMatch × List Char) :=
  if lang.isEmpty then none
  else if (r1.takeWhile isSpaceChar).isEmpty then none
  else matchA3 lang (dropLit ("file=\"".data) (r1.dropWhile isSpaceChar))

/-- Alternative 1 of the header: `(\w+)\s+file="([^"]+)"`.  The runs `\w+`,
`\s+` and `[^"]+` are maximal and delimited by characters outside the classes,
so this is the unique way the alternative can match. -/
def matchA (t : List Char) : Option (BlockMatch × List Char) :=
  matchA2 (t.takeWhile isWordChar) (t.dropWhile isWordChar)

/-- Alternative 2, after the line has been taken: the line must end in a dot
plus a recognized extension (the argument is `findExt line extListAll`). -/
def matchB4 (lang line r3 : List Char) :
    Option (List Char) → Option (BlockMatch × List Char)
  | some e => finishBlock (mkColon lang line e) r3
  | none => none

/-- Alternative 2, after the colon: the group `[^\n]+\.(EXT)` is followed by
`\n` in the pattern, so it must consume the entire rest of the fence line. -/
def matchB3 (lang line r3 : List Char) : Option (BlockMatch × List Char) :=
  matchB4 lang line r3 (findExt line extListAll)

/-- Alternative 2, after the `\w+` run: requires a literal `:`. -/
def matchB2 (lang r1 : List Char) : Option (BlockMatch × List Char) :=
  if lang.isEmpty then none
  else
    match r1 with
    | c :: r2 =>
      if c = ':' then matchB3 lang (r2.takeWhile notNewline) (r2.dropWhile notNewline)
      else none
    | [] => none

/-- Alternative 2 of the header: `(\w+):([^\n]+\.(EXT))`. -/
def matchB (t : List Char) : Option (BlockMatch × List Char) :=
  matchB2 (t.takeWhile isWordChar) (t.dropWhile isWordChar)

/-- Alternative 3, after the line has been taken. -/
def matchC3 (line r1 : List Char) :
    Option (List Char) → Option (BlockMatch × List Char)
  | some e => finishBlock (mkDirect line e) r1
  | none => none

/-- Alternative 3 of the header: `([^\n]+\.(EXT))`, the whole fence line. -/
def matchC (t : List Char) : Option (BlockMatch × List Char) :=
  matchC3 (t.takeWhile notNewline) (t.dropWhile notNewline)
    (findExt (t.takeWhile notNewline) extListAll)

/-- Attempt the whole pattern at the current position. -/
def tryMatchAt (s : List Char) : Option (BlockMatch × List Char) :=
  if isFenceStart s = true then
    match matchA (s.drop 3) with
    | some r => some r
    | none =>
      match matchB (s.drop 3) with
      | some r => some r
      | none => matchC (s.drop 3)
  else none

/-- The `re.findall` scan: try a match at each position; on failure advance one
character, on success resume after the match.  `fuel` bounds the number of
steps; `scanBlocks` supplies the input length, which is always sufficient
because every step consumes at least one character. -/
def scanAux : Nat → List Char → List BlockMatch
  | 0, _ => []
  | _ + 1, [] => []
  | f + 1, c :: t =>
    match tryMatchAt (c :: t) with
    | some (m, rest) => m :: scanAux f rest
    | none => scanAux f t

/-- All matches of the pattern in the document, in order. -/
def scanBlocks (content : List Char) : List BlockMatch :=
  scanAux content.length content

/-- Python dict assignment `d[k] = v`: an existing key keeps its position and
gets the new value; a new key is appended. -/
def dictSet : List (List Char × List Char) → List Char → List Char →
    List (List Char × List Char)
  | [], k, v => [(k, v)]
  | (a, b) :: rest, k, v =>
    if a = k then (a, v) :: rest else (a, b) :: dictSet rest k v

/-- Python `str.strip()` (ASCII whitespace). -/
def pyStrip (s : List Char) : List Char :=
  ((s.dropWhile isSpaceChar).reverse.dropWhile isSpaceChar).reverse

/-- The language → default-filename fallback chain of `parse_code_blocks`
(sketch.py lines 186–199 and the identical chain at 202–215). -/
def langFallback (files : List (List Char × List Char)) (lang code : List Char) :
    List (List Char × List Char) :=
  if lang = "typescript".data ∨ lang = "ts".data ∨ lang = "tsx".data then
    dictSet files ("index.ts".data) code
  else if lang = "javascript".data ∨ lang = "js".data ∨ lang = "jsx".data then
    dictSet files ("index.js".data) code
  else if lang = "python".data ∨ lang = "py".data then
    dictSet files ("main.py".data) code
  else if lang = "css".data then
    dictSet files ("styles.css".data) code
  else if lang = "html".data then
    dictSet files ("index.html".data) code
  else if lang = "json".data then
    dictSet files ("config.json".data) code
  else if lang = "markdown".data ∨ lang = "md".data then
    dictSet files ("README.md".data) code
  else files

/-- The body of the `for match in matches:` loop of `parse_code_blocks`
(Python truthiness of a string is non-emptiness). -/
def processMatch (files : List (List Char × List Char)) (m : BlockMatch) :
    List (List Char × List Char) :=
  if m.language_v0 ≠ [] ∧ m.filename_v0 ≠ [] then
    dictSet files m.filename_v0 (pyStrip m.code)
  else if m.language_colon ≠ [] ∧ m.filename_colon ≠ [] then
    dictSet files m.filename_colon (pyStrip m.code)
  else if m.filename_direct ≠ [] then
    dictSet files m.filename_direct (pyStrip m.code)
  else if m.language_v0 ≠ [] ∧ pyStrip m.code ≠ [] then
    langFallback files m.language_v0 (pyStrip m.code)
  else if m.language_colon ≠ [] ∧ pyStrip m.code ≠ [] then
    langFallback files m.language_colon (pyStrip m.code)
  else files

/-- `parse_code_blocks` at the level of character lists. -/
def parseBlocksL (content : List Char) : List (List Char × List Char) :=
  (scanBlocks content).foldl processMatch []

/-- `parse_code_blocks(content)`: the returned dict as an ordered association
list of (filename, body). -/
def parse_code_blocks (content : String) : List (String × String) :=
  (parseBlocksL content.data).map (fun p => (String.mk p.1, String.mk p.2))

/-- Lookup in the association list representing the dict. -/
def dictFind : List (List Char × List Char) → List Char → Option (List Char)
  | [], _ => none
  | (a, b) :: rest, k => if a = k then some b else dictFind rest k

/-- `foldl` step inserting one (filename, body) pair. -/
def dictStep (d : List (List Char × List Char)) (p : List Char × List Char) :
    List (List Char × List Char) :=
  dictSet d p.1 p.2

/-- The value assigned to key `x` by the latest pair of `l` whose key is `x`
(pairs later in `l` take priority). -/
def lastVal : List (List Char × List Char) → List Char → Option (List Char)
  | [], _ => none
  | (k, v) :: rest, x =>
    (lastVal rest x).or (if k = x then some v else none)

/-- The keys of the dict are pairwise distinct. -/
def NodupKeys (d : List (List Char × List Char)) : Prop :=
  (d.map Prod.fst).Nodup

/-- The language → default-filename table, as a partial function. -/
def defaultName (lang : List Char) : Option (List Char) :=
  if lang = "typescript".data ∨ lang = "ts".data ∨ lang = "tsx".data then
    some ("index.ts".data)
  else if lang = "javascript".data ∨ lang = "js".data ∨ lang = "jsx".data then
    some ("index.js".data)
  else if lang = "python".data ∨ lang = "py".data then
    some ("main.py".data)
  else if lang = "css".data then
    some ("styles.css".data)
  else if lang = "html".data then
    some ("index.html".data)
  else if lang = "json".data then
    some ("config.json".data)
  else if lang = "markdown".data ∨ lang = "md".data then
    some ("README.md".data)
  else none

/-- The single (filename, body) pair (if any) that one match tuple inserts. -/
def contribution (m : BlockMatch) : Option (List Char × List Char) :=
  if m.language_v0 ≠ [] ∧ m.filename_v0 ≠ [] then
    some (m.filename_v0, pyStrip m.code)
  else if m.language_colon ≠ [] ∧ m.filename_colon ≠ [] then
    some (m.filename_colon, pyStrip m.code)
  else if m.filename_direct ≠ [] then
    some (m.filename_direct, pyStrip m.code)
  else if m.language_v0 ≠ [] ∧ pyStrip m.code ≠ [] then
    (defaultName m.language_v0).map (fun k => (k, pyStrip m.code))
  else if m.language_colon ≠ [] ∧ pyStrip m.code ≠ [] then
    (defaultName m.language_colon).map (fun k => (k, pyStrip m.code))
  else none

/-- All (filename, body) pairs inserted while scanning the document, in order. -/
def contribs (c : List Char) : List (List Char × List Char) :=
  (scanBlocks c).filterMap contribution

/-! ### Model of `create_files` (sketch.py lines 220–239)

The file-system outcome of a single `mkdir(parents=True, exist_ok=True)` call
and of a single `open(..., "w")`/`write` is abstracted by an oracle: `ok` means
the operation succeeds, `error e` that it raises an exception with message `e`.
In the Python loop, `file_path.parent.mkdir(...)` runs *outside* the
`try`/`except`, so an exception there propagates out of `create_files` and the
remaining entries are never processed; `open`/`write` run *inside* the `try`,
so an exception there is reported for that entry and the loop continues. -/

/-- Oracle for the outcomes of the two file-system operations per entry. -/
structure FSModel where
  mkdirResult : List Char → Except String Unit
  writeResult : List Char → Except String Unit

/-- What `create_files` reports for one entry: success or a caught failure. -/
inductive WriteEvent where
  | created : List Char → WriteEvent
  | failed : List Char → String → WriteEvent
  deriving DecidableEq, Repr

/-- The event the `try`/`except` of the loop body produces for one filename. -/
def writeEv (fs : FSModel) (fname : List Char) : WriteEvent :=
  match fs.writeResult fname with
  | Except.ok _ => WriteEvent.created fname
  | Except.error e => WriteEvent.failed fname e

/-- The loop of `create_files`: returns the events of the entries it processed
and, if an uncaught `mkdir` exception escaped, its message (in which case the
remaining entries were not processed). -/
def create_files (fs : FSModel) : List (List Char × List Char) →
    List WriteEvent × Option String
  | [] => ([], none)
  | (fname, _content) :: rest =>
    match fs.mkdirResult fname with
    | Except.error e => ([], some e)
    | Except.ok _ =>
      match create_files fs rest with
      | (evs, err) => (writeEv fs fname :: evs, err)

/-- A concrete file system in which creating the parent directory of
`a/x.txt` fails (e.g. no permission) and every write succeeds. -/
def fsBad : FSModel where
  mkdirResult := fun f =>
    if f = "a/x.txt".data then Except.error "permission denied" else Except.ok ()
  writeResult := fun _ => Except.ok ()

/-- A concrete file system in which all directory creations succeed but the
write of `a.txt` fails (e.g. disk full). -/
def fsFlaky : FSModel where
  mkdirResult := fun _ => Except.ok ()
  writeResult := fun f =>
    if f = "a.txt".data then Except.error "disk full" else Except.ok ()

/-! ### General list helpers -/

theorem isEmpty_false {α : Type} {l : List α} (h : l ≠ []) : l.isEmpty = false := by
  cases l with
  | nil => exact absurd rfl h
  | cons a t => rfl

theorem takeWhile_append_stop {α : Type} {p : α → Bool} {a : List α} {d : α} {t : List α}
    (ha : ∀ c ∈ a, p c = true) (hd : p d = false) :
    (a ++ d :: t).takeWhile p = a := by
  induction a with
  | nil => simp [List.takeWhile_cons, hd]
  | cons c a ih =>
    have hc : p c = true := ha c (List.mem_cons_self c a)
    have ih' := ih (fun x hx => ha x (List.mem_cons_of_mem c hx))
    simp [List.takeWhile_cons, hc, ih']

theorem dropWhile_append_stop {α : Type} {p : α → Bool} {a : List α} {d : α} {t : List α}
    (ha : ∀ c ∈ a, p c = true) (hd : p d = false) :
    (a ++ d :: t).dropWhile p = d :: t := by
  induction a with
  | nil => simp [List.dropWhile_cons, hd]
  | cons c a ih =>
    have hc : p c = true := ha c (List.mem_cons_self c a)
    have ih' := ih (fun x hx => ha x (List.mem_cons_of_mem c hx))
    simp [List.dropWhile_cons, hc, ih']

theorem takeWhile_append_ex {α : Type} {p : α → Bool} {a : List α} (t : List α)
    (h : ∃ c ∈ a, p c = false) : (a ++ t).takeWhile p = a.takeWhile p := by
  induction a with
  | nil => simp at h
  | cons c a ih =>
    by_cases hc : p c = true
    · have h' : ∃ x ∈ a, p x = false := by
        rcases h with ⟨x, hx, hpx⟩
        rcases List.mem_cons.mp hx with rfl | hx'
        · rw [hc] at hpx; cases hpx
        · exact ⟨x, hx', hpx⟩
      simp [List.takeWhile_cons, hc, ih h']
    · have hc' : p c = false := by
        cases hpc : p c with
        | false => rfl
        | true => exact absurd hpc hc
      simp [List.takeWhile_cons, hc']

theorem dropWhile_append_ex {α : Type} {p : α → Bool} {a : List α} (t : List α)
    (h : ∃ c ∈ a, p c = false) : (a ++ t).dropWhile p = a.dropWhile p ++ t := by
  induction a with
  | nil => simp at h
  | cons c a ih =>
    by_cases hc : p c = true
    · have h' : ∃ x ∈ a, p x = false := by
        rcases h with ⟨x, hx, hpx⟩
        rcases List.mem_cons.mp hx with rfl | hx'
        · rw [hc] at hpx; cases hpx
        · exact ⟨x, hx', hpx⟩
      simp [List.dropWhile_cons, hc, ih h']
    · have hc' : p c = false := by
        cases hpc : p c with
        | false => rfl
        | true => exact absurd hpc hc
      simp [List.dropWhile_cons, hc']

theorem dropWhile_ne_nil_of_ex {α : Type} {p : α → Bool} {a : List α}
    (h : ∃ c ∈ a, p c = false) : a.dropWhile p ≠ [] := by
  induction a with
  | nil => simp at h
  | cons c a ih =>
    by_cases hc : p c = true
    · have h' : ∃ x ∈ a, p x = false := by
        rcases h with ⟨x, hx, hpx⟩
        rcases List.mem_cons.mp hx with rfl | hx'
        · rw [hc] at hpx; cases hpx
        · exact ⟨x, hx', hpx⟩
      simpa [List.dropWhile_cons, hc] using ih h'
    · have hc' : p c = false := by
        cases hpc : p c with
        | false => rfl
        | true => exact absurd hpc hc
      simp [List.dropWhile_cons, hc']

theorem dropWhile_head_mem {α : Type} {p : α → Bool} {a : List α} {d : α} {dt : List α}
    (h : a.dropWhile p = d :: dt) : d ∈ a ∧ p d = false := by
  induction a with
  | nil => cases h
  | cons c a ih =>
    by_cases hc : p c = true
    · rw [List.dropWhile_cons, if_pos hc] at h
      rcases ih h with ⟨hm, hp⟩
      exact ⟨List.mem_cons_of_mem c hm, hp⟩
    · have hc' : p c = false := by
        cases hpc : p c with
        | false => rfl
        | true => exact absurd hpc hc
      rw [List.dropWhile_cons, if_neg (by simp [hc'])] at h
      obtain ⟨rfl, -⟩ : c = d ∧ a = dt := by
        constructor <;> [exact (List.cons.injEq ..).mp h |>.1; exact (List.cons.injEq ..).mp h |>.2]
      exact ⟨List.mem_cons_self c a, hc'⟩

theorem all_takeWhile {α : Type} (p : α → Bool) (l : List α) :
    (l.takeWhile p).all p = true := by
  simp only [List.all_eq_true]
  exact fun x hx => List.mem_takeWhile_imp hx

theorem dropWhile_all_space {p : Char → Bool} {s : List Char} (h : s.all p = true) :
    s.dropWhile p = [] := by
  induction s with
  | nil => rfl
  | cons c t ih =>
    rcases List.all_eq_true.mp h c (List.mem_cons_self c t) with hc
    rw [List.dropWhile_cons, if_pos (by simp [hc])]
    exact ih (List.all_eq_true.mpr (fun x hx => List.all_eq_true.mp h x (List.mem_cons_of_mem c hx)))

/-! ### Fence lemmas -/

theorem isFenceStart_cons_false {c : Char} {t : List Char} (h : c ≠ btick) :
    isFenceStart (c :: t) = false := by
  cases t with
  | nil => rfl
  | cons c2 t2 =>
    cases t2 with
    | nil => rfl
    | cons c3 t3 =>
      simp only [isFenceStart, decide_eq_false_iff_not]
      intro hc
      exact h hc.1

theorem splitAtFence_append {a t : List Char} (ha : ∀ c ∈ a, c ≠ btick) :
    splitAtFence (a ++ btick :: btick :: btick :: t) = some (a, t) := by
  induction a with
  | nil =>
    show splitAtFence (btick :: btick :: btick :: t) = some ([], t)
    rw [splitAtFence]
    simp [isFenceStart]
  | cons c a ih =>
    have hc : c ≠ btick := ha c (List.mem_cons_self c a)
    have ih' := ih (fun x hx => ha x (List.mem_cons_of_mem c hx))
    rw [List.cons_append, splitAtFence, if_neg (by simp [isFenceStart_cons_false hc]), ih']

theorem splitAtFence_none {a : List Char} (ha : ∀ c ∈ a, c ≠ btick) :
    splitAtFence a = none := by
  induction a with
  | nil => rfl
  | cons c a ih =>
    have hc : c ≠ btick := ha c (List.mem_cons_self c a)
    have ih' := ih (fun x hx => ha x (List.mem_cons_of_mem c hx))
    rw [splitAtFence, if_neg (by simp [isFenceStart_cons_false hc]), ih']

/-! ### Scanner lemmas -/

theorem tryMatchAt_nil : tryMatchAt [] = none := rfl

theorem tryMatchAt_not_fence {s : List Char} (h : isFenceStart s = false) :
    tryMatchAt s = none := by
  simp [tryMatchAt, h]

theorem tryMatchAt_no_btick {s : List Char} (h : ∀ c ∈ s, c ≠ btick) :
    tryMatchAt s = none := by
  cases s with
  | nil => rfl
  | cons c t => exact tryMatchAt_not_fence (isFenceStart_cons_false (h c (List.mem_cons_self c t)))

theorem scanAux_nil (f : Nat) : scanAux f [] = [] := by cases f <;> rfl

theorem scanAux_all_none (f : Nat) : ∀ (s : List Char),
    (∀ n, tryMatchAt (s.drop n) = none) → scanAux f s = [] := by
  induction f with
  | zero => intro s h; rfl
  | succ f ih =>
    intro s h
    cases s with
    | nil => rfl
    | cons c t =>
      have h0 := h 0
      rw [List.drop_zero] at h0
      simp only [scanAux, h0]
      exact ih t (fun n => by have hn := h (n + 1); rwa [List.drop_succ_cons] at hn)

theorem scanBlocks_single {s : List Char} {m : BlockMatch}
    (h : tryMatchAt s = some (m, [])) : scanBlocks s = [m] := by
  cases s with
  | nil => rw [tryMatchAt_nil] at h; cases h
  | cons c t =>
    show scanAux (c :: t).length (c :: t) = [m]
    rw [List.length_cons]
    simp only [scanAux, h, scanAux_nil]

theorem scanAux_no_fence (f : Nat) : ∀ (s : List Char),
    containsFence s = false → scanAux f s = [] := by
  induction f with
  | zero => intro s h; rfl
  | succ f ih =>
    intro s h
    cases s with
    | nil => rfl
    | cons c t =>
      rw [containsFence, Bool.or_eq_false_iff] at h
      simp only [scanAux, tryMatchAt_not_fence h.1]
      exact ih t h.2

/-! ### Dict lemmas (Python dict semantics) -/

theorem dictFind_dictSet_self (d : List (List Char × List Char)) (k v : List Char) :
    dictFind (dictSet d k v) k = some v := by
  induction d with
  | nil => simp [dictSet, dictFind]
  | cons p rest ih =>
    obtain ⟨a, b⟩ := p
    by_cases hak : a = k
    · subst hak
      rw [dictSet, if_pos rfl, dictFind, if_pos rfl]
    · rw [dictSet, if_neg hak, dictFind, if_neg hak, ih]

theorem dictFind_dictSet_ne (d : List (List Char × List Char)) (k v x : List Char)
    (h : x ≠ k) : dictFind (dictSet d k v) x = dictFind d x := by
  induction d with
  | nil =>
    have hkx : ¬ k = x := fun hk => h hk.symm
    show dictFind [(k, v)] x = dictFind [] x
    simp [dictFind, hkx]
  | cons p rest ih =>
    obtain ⟨a, b⟩ := p
    by_cases hak : a = k
    · subst hak
      have hax : ¬ a = x := fun hx => h (hx.symm)
      rw [dictSet, if_pos rfl, dictFind, if_neg hax, dictFind, if_neg hax]
    · rw [dictSet, if_neg hak, dictFind, dictFind, ih]

theorem foldl_dictStep_find (l : List (List Char × List Char)) :
    ∀ (acc : List (List Char × List Char)) (x : List Char),
      dictFind (l.foldl dictStep acc) x = (lastVal l x).or (dictFind acc x) := by
  induction l with
  | nil => intro acc x; rfl
  | cons p rest ih =>
    intro acc x
    obtain ⟨k, v⟩ := p
    rw [List.foldl_cons, ih, lastVal, Option.or_assoc]
    congr 1
    by_cases hkx : k = x
    · subst hkx
      rw [if_pos rfl]
      show dictFind (dictSet acc k v) k = (some v).or (dictFind acc k)
      rw [dictFind_dictSet_self]
      rfl
    · rw [if_neg hkx, Option.none_or]
      show dictFind (dictSet acc k v) x = dictFind acc x
      exact dictFind_dictSet_ne acc k v x (fun hx => hkx hx.symm)

theorem dictSet_keys_mem (d : List (List Char × List Char)) (k v : List Char)
    (h : k ∈ d.map Prod.fst) : (dictSet d k v).map Prod.fst = d.map Prod.fst := by
  induction d with
  | nil => simp at h
  | cons p rest ih =>
    obtain ⟨a, b⟩ := p
    rw [List.map_cons] at h
    by_cases hak : a = k
    · subst hak
      rw [dictSet, if_pos rfl]; rfl
    · have hk' : k ∈ rest.map Prod.fst := by
        rcases List.mem_cons.mp h with h1 | h1
        · exact absurd h1.symm hak
        · exact h1
      rw [dictSet, if_neg hak, List.map_cons, List.map_cons, ih hk']

theorem dictSet_keys_not_mem (d : List (List Char × List Char)) (k v : List Char)
    (h : k ∉ d.map Prod.fst) : (dictSet d k v).map Prod.fst = d.map Prod.fst ++ [k] := by
  induction d with
  | nil => rfl
  | cons p rest ih =>
    obtain ⟨a, b⟩ := p
    have hak : ¬ a = k := fun hk => h (by simp [hk])
    rw [dictSet, if_neg hak, List.map_cons, List.map_cons,
      ih (fun hk => h (by simp [hk])), List.cons_append]

theorem nodupKeys_dictSet (d : List (List Char × List Char)) (k v : List Char)
    (h : NodupKeys d) : NodupKeys (dictSet d k v) := by
  by_cases hk : k ∈ d.map Prod.fst
  · rw [NodupKeys, dictSet_keys_mem d k v hk]
    exact h
  · rw [NodupKeys, dictSet_keys_not_mem d k v hk]
    rw [List.nodup_append]
    exact ⟨h, List.nodup_singleton k, by
      intro x hx hx'
      rw [List.mem_singleton] at hx'
      subst hx'
      exact hk hx⟩

theorem nodupKeys_foldl (l : List (List Char × List Char)) :
    ∀ acc, NodupKeys acc → NodupKeys (l.foldl dictStep acc) := by
  induction l with
  | nil => intro acc h; exact h
  | cons p rest ih =>
    intro acc h
    rw [List.foldl_cons]
    exact ih _ (nodupKeys_dictSet acc p.1 p.2 h)

theorem lastVal_isSome_of_mem (l : List (List Char × List Char)) (x : List Char)
    (h : x ∈ l.map Prod.fst) : ∃ v, lastVal l x = some v := by
  induction l with
  | nil => simp at h
  | cons p rest ih =>
    obtain ⟨k, v⟩ := p
    rw [List.map_cons] at h
    cases hl : lastVal rest x with
    | some w => exact ⟨w, by rw [lastVal, hl]; rfl⟩
    | none =>
      rcases List.mem_cons.mp h with h1 | h1
      · exact ⟨v, by rw [lastVal, hl, Option.none_or, if_pos h1.symm]⟩
      · rcases ih h1 with ⟨w, hw⟩
        rw [hw] at hl; cases hl

theorem filter_keys_nil (rest : List (List Char × List Char)) (x : List Char)
    (h : x ∉ rest.map Prod.fst) :
    rest.filter (fun p => decide (p.1 = x)) = [] := by
  induction rest with
  | nil => rfl
  | cons p r ih =>
    obtain ⟨a, b⟩ := p
    have hax : ¬ a = x := fun hk => h (by simp [hk])
    rw [List.filter_cons_of_neg (by simpa using hax)]
    exact ih (fun hk => h (by simp [hk]))

theorem filter_singleton_of_nodup (d : List (List Char × List Char)) (x v : List Char)
    (hn : NodupKeys d) (hf : dictFind d x = some v) :
    d.filter (fun p => decide (p.1 = x)) = [(x, v)] := by
  induction d with
  | nil => cases hf
  | cons p rest ih =>
    obtain ⟨a, b⟩ := p
    by_cases hax : a = x
    · subst hax
      rw [dictFind, if_pos rfl] at hf
      obtain rfl : b = v := by injection hf
      rw [List.filter_cons_of_pos (by simp)]
      have hnotin : a ∉ rest.map Prod.fst := by
        have := hn
        rw [NodupKeys, List.map_cons, List.nodup_cons] at this
        exact this.1
      rw [filter_keys_nil rest a hnotin]
    · rw [dictFind, if_neg hax] at hf
      rw [List.filter_cons_of_neg (by simpa using hax)]
      refine ih ?_ hf
      have := hn
      rw [NodupKeys, List.map_cons, List.nodup_cons] at this
      exact this.2

/-! ### The contribution of one regex match -/

theorem langFallback_eq (files : List (List Char × List Char)) (lang code : List Char) :
    langFallback files lang code =
      match defaultName lang with
      | some k => dictSet files k code
      | none => files := by
  unfold langFallback defaultName
  split_ifs <;> rfl

theorem processMatch_eq (files : List (List Char × List Char)) (m : BlockMatch) :
    processMatch files m =
      match contribution m with
      | some p => dictSet files p.1 p.2
      | none => files := by
  unfold processMatch contribution
  split_ifs <;>
    first
      | rfl
      | (rw [langFallback_eq]; cases defaultName m.language_v0 <;> rfl)
      | (rw [langFallback_eq]; cases defaultName m.language_colon <;> rfl)

theorem contribution_val {m : BlockMatch} {p : List Char × List Char}
    (h : contribution m = some p) : p.2 = pyStrip m.code := by
  unfold contribution at h
  split_ifs at h
  all_goals
    first
      | exact Option.noConfusion h
      | (injection h with h'; cases h'; rfl)
      | (rcases Option.map_eq_some'.mp h with ⟨k, hk, hf⟩; rw [← hf])

theorem foldl_processMatch_eq (l : List BlockMatch) :
    ∀ acc, l.foldl processMatch acc = (l.filterMap contribution).foldl dictStep acc := by
  induction l with
  | nil => intro acc; rfl
  | cons m rest ih =>
    intro acc
    rw [List.foldl_cons, ih, processMatch_eq]
    cases hc : contribution m with
    | none => rw [List.filterMap_cons, hc]
    | some p => rw [List.filterMap_cons, hc, List.foldl_cons]; rfl

theorem parseBlocksL_eq (c : List Char) :
    parseBlocksL c = (contribs c).foldl dictStep [] := by
  unfold parseBlocksL contribs
  exact foldl_processMatch_eq _ []

/-! ### pyStrip lemmas -/

theorem pyStrip_decomp (s : List Char) :
    ∃ a b, s = a ++ pyStrip s ++ b ∧ a.all isSpaceChar = true ∧ b.all isSpaceChar = true := by
  refine ⟨s.takeWhile isSpaceChar,
    ((s.dropWhile isSpaceChar).reverse.takeWhile isSpaceChar).reverse, ?_, ?_, ?_⟩
  · conv_lhs => rw [← List.takeWhile_append_dropWhile isSpaceChar s]
    rw [List.append_assoc]
    congr 1
    have h2 : (s.dropWhile isSpaceChar).reverse.takeWhile isSpaceChar ++
        (s.dropWhile isSpaceChar).reverse.dropWhile isSpaceChar =
        (s.dropWhile isSpaceChar).reverse :=
      List.takeWhile_append_dropWhile _ _
    calc s.dropWhile isSpaceChar
        = (s.dropWhile isSpaceChar).reverse.reverse := (List.reverse_reverse _).symm
      _ = ((s.dropWhile isSpaceChar).reverse.takeWhile isSpaceChar ++
            (s.dropWhile isSpaceChar).reverse.dropWhile isSpaceChar).reverse := by rw [h2]
      _ = pyStrip s ++ ((s.dropWhile isSpaceChar).reverse.takeWhile isSpaceChar).reverse := by
            rw [List.reverse_append]; rfl
  · exact all_takeWhile _ _
  · rw [List.all_reverse]
    exact all_takeWhile _ _

theorem pyStrip_all_space {s : List Char} (h : s.all isSpaceChar = true) :
    pyStrip s = [] := by
  unfold pyStrip
  rw [dropWhile_all_space h]
  rfl

theorem space_ne_btick {c : Char} (h : isSpaceChar c = true) : c ≠ btick := by
  intro hc
  subst hc
  have : isSpaceChar btick = false := by decide
  rw [this] at h
  cases h

/-! ### Origin of dict values -/

theorem dictSet_mem {d : List (List Char × List Char)} {k v a w : List Char}
    (h : (k, v) ∈ dictSet d a w) : (k, v) ∈ d ∨ v = w := by
  induction d with
  | nil =>
    rcases List.mem_singleton.mp h with h1
    right
    exact congrArg Prod.snd h1
  | cons p rest ih =>
    obtain ⟨x, y⟩ := p
    by_cases hxa : x = a
    · subst hxa
      rw [dictSet, if_pos rfl] at h
      rcases List.mem_cons.mp h with h1 | h1
      · right; exact congrArg Prod.snd h1
      · left; exact List.mem_cons_of_mem _ h1
    · rw [dictSet, if_neg hxa] at h
      rcases List.mem_cons.mp h with h1 | h1
      · left; exact h1 ▸ List.mem_cons_self _ _
      · rcases ih h1 with h2 | h2
        · left; exact List.mem_cons_of_mem _ h2
        · right; exact h2

theorem mem_foldl_dictStep (l : List (List Char × List Char)) :
    ∀ acc k v, (k, v) ∈ l.foldl dictStep acc → (k, v) ∈ acc ∨ ∃ p ∈ l, v = p.2 := by
  induction l with
  | nil => intro acc k v h; exact Or.inl h
  | cons p rest ih =>
    intro acc k v h
    rw [List.foldl_cons] at h
    rcases ih _ k v h with h1 | ⟨q, hq, hv⟩
    · rcases dictSet_mem h1 with h2 | h2
      · exact Or.inl h2
      · exact Or.inr ⟨p, List.mem_cons_self p rest, h2⟩
    · exact Or.inr ⟨q, List.mem_cons_of_mem p hq, hv⟩

theorem values_from {c : List Char} {k v : List Char} (h : (k, v) ∈ parseBlocksL c) :
    ∃ m ∈ scanBlocks c, v = pyStrip m.code := by
  rw [parseBlocksL_eq] at h
  rcases mem_foldl_dictStep _ [] k v h with h0 | ⟨p, hp, hv⟩
  · cases h0
  · rcases List.mem_filterMap.mp hp with ⟨m, hm, hcm⟩
    exact ⟨m, hm, by rw [hv, contribution_val hcm]⟩

/-! ### findExt decomposition -/

theorem findExt_some {line : List Char} {l : List (List Char)} {e : List Char}
    (h : findExt line l = some e) :
    e ∈ l ∧ ∃ q, q ≠ [] ∧ line = q ++ '.' :: e := by
  induction l with
  | nil => cases h
  | cons e0 rest ih =>
    rw [findExt] at h
    split_ifs at h with hc
    · injection h with he
      subst he
      refine ⟨List.mem_cons_self _ _, ?_⟩
      obtain ⟨hlen, hdrop⟩ := hc
      refine ⟨line.take (line.length - (e0.length + 1)), ?_, ?_⟩
      · have hlenq : (line.take (line.length - (e0.length + 1))).length =
            line.length - (e0.length + 1) := by
          rw [List.length_take, Nat.min_eq_left (by omega)]
        intro h0
        rw [h0] at hlenq
        simp at hlenq
        omega
      · conv_lhs => rw [← List.take_append_drop (line.length - (e0.length + 1)) line]
        rw [hdrop]
    · rcases ih h with ⟨h1, h2⟩
      exact ⟨List.mem_cons_of_mem _ h1, h2⟩

/-! ### `create_files` behaviour -/

theorem create_files_all_mkdir_ok (fs : FSModel) (entries : List (List Char × List Char))
    (h : ∀ p ∈ entries, fs.mkdirResult p.1 = Except.ok ()) :
    create_files fs entries = (entries.map (fun p => writeEv fs p.1), none) := by
  induction entries with
  | nil => rfl
  | cons p rest ih =>
    obtain ⟨fname, content⟩ := p
    have hm := h (fname, content) (List.mem_cons_self _ _)
    have ih' := ih (fun q hq => h q (List.mem_cons_of_mem _ hq))
    simp only [create_files, hm, ih', List.map_cons]

theorem create_files_mkdir_failure_aborts (fs : FSModel)
    (pre : List (List Char × List Char)) (fname content : List Char)
    (rest : List (List Char × List Char)) (e : String)
    (hpre : ∀ p ∈ pre, fs.mkdirResult p.1 = Except.ok ())
    (hf : fs.mkdirResult fname = Except.error e) :
    create_files fs (pre ++ (fname, content) :: rest) =
      (pre.map (fun p => writeEv fs p.1), some e) := by
  induction pre with
  | nil => simp only [List.nil_append, create_files, hf, List.map_nil]
  | cons p pre ih =>
    obtain ⟨a, b⟩ := p
    have hm := hpre (a, b) (List.mem_cons_self _ _)
    have ih' := ih (fun q hq => hpre q (List.mem_cons_of_mem _ hq))
    simp only [List.cons_append, create_files, hm, List.append_eq, ih', List.map_cons]

/-! ### Failure modes of the header alternatives -/

theorem matchA2_not_space {lang : List Char} {d : Char} {r : List Char}
    (hd : isSpaceChar d = false) : matchA2 lang (d :: r) = none := by
  unfold matchA2
  by_cases hl : lang.isEmpty = true
  · rw [if_pos hl]
  · have hl' : lang.isEmpty = false := by
      revert hl; cases lang.isEmpty <;> simp
    have hsp : (d :: r).takeWhile isSpaceChar = [] := by
      simp [List.takeWhile_cons, hd]
    rw [hl', hsp]
    rfl

theorem matchB2_not_colon {lang : List Char} {d : Char} {r : List Char}
    (hd : d ≠ ':') : matchB2 lang (d :: r) = none := by
  unfold matchB2
  by_cases hl : lang.isEmpty = true
  · rw [if_pos hl]
  · have hl' : lang.isEmpty = false := by
      revert hl; cases lang.isEmpty <;> simp
    rw [hl']
    show (if d = ':' then
      matchB3 lang (r.takeWhile notNewline) (r.dropWhile notNewline) else none) = none
    rw [if_neg hd]

/-! ### Claim theorems -/

/-- C1.  The claim says: a fenced block whose opening fence is a bare language
token (e.g. ```` ```typescript ````) with non-empty body gets a default
filename from the language table, and for two bare ```` ```typescript ````
blocks the result holds exactly one entry `"index.ts"` with the second body.
The code cannot do this: the regex of `parse_code_blocks` has no alternative
for a bare language token without a filename, so such blocks never match and
the fallback table at sketch.py 183–215 is unreachable.  At the claim's own
input the result is empty. -/
theorem c1_language_only_two_typescript_blocks_yield_nothing :
    parse_code_blocks
      "```typescript\nconst a = 1\n```\n\n```typescript\nconst b = 2\n```" = [] := by
  decide

/-- C8.  `parse_code_blocks` is total (it is a function in this embedding); a
document with no fenced code block (no triple backtick at all) yields the
empty mapping, and a document whose only block matches no recognized pattern
(here a bare ```` ```rust ```` block) yields the empty mapping rather than an
error. -/
theorem c8_total_unmatched_omitted_empty_mapping :
    (∀ content : String, containsFence content.data = false →
      parse_code_blocks content = []) ∧
    parse_code_blocks "```rust\nfn main() \x7b\x7d\n```" = [] := by
  constructor
  · intro content h
    unfold parse_code_blocks parseBlocksL scanBlocks
    rw [scanAux_no_fence _ _ h]
    rfl
  · decide

/-- Witness for C8: a concrete document with no fenced code blocks parses to
the empty mapping, via the universally quantified part of the theorem. -/
theorem c8_witness : parse_code_blocks "no code here at all" = [] :=
  c8_total_unmatched_omitted_empty_mapping.1 "no code here at all" (by decide)

/-- C2.  Last write wins: whenever a filename `f` is among the filenames of
the successfully classified blocks of a document, the resulting mapping has
exactly one entry for `f`, and its body is the one assigned by the latest
classified block with that filename; in particular every classified filename
has its own entry. -/
theorem c2_last_write_wins (content : String) (f : List Char)
    (h : f ∈ (contribs content.data).map Prod.fst) :
    ∃ v, lastVal (contribs content.data) f = some v ∧
      (parseBlocksL content.data).filter (fun p => decide (p.1 = f)) = [(f, v)] := by
  rcases lastVal_isSome_of_mem _ _ h with ⟨v, hv⟩
  refine ⟨v, hv, ?_⟩
  have hfind : dictFind (parseBlocksL content.data) f = some v := by
    rw [parseBlocksL_eq, foldl_dictStep_find, hv]
    rfl
  have hnodup : NodupKeys (parseBlocksL content.data) := by
    rw [parseBlocksL_eq]
    exact nodupKeys_foldl _ [] (by simp [NodupKeys])
  exact filter_singleton_of_nodup _ _ _ hnodup hfind

/-- Witness for C2: two classified blocks both named `dup.py`; the mapping has
exactly one entry for it, holding the later block's body. -/
theorem c2_witness :
    ∃ v, lastVal (contribs ("```py:dup.py\nfirst\n```\n```js:dup.py\nsecond\n```").data)
          ("dup.py".data) = some v ∧
      (parseBlocksL ("```py:dup.py\nfirst\n```\n```js:dup.py\nsecond\n```").data).filter
          (fun p => decide (p.1 = "dup.py".data)) = [("dup.py".data, v)] :=
  c2_last_write_wins "```py:dup.py\nfirst\n```\n```js:dup.py\nsecond\n```"
    ("dup.py".data) (by decide)

/-- C7.  Every entry of the mapping stores exactly the raw text captured
between the fences with leading and trailing whitespace stripped: the stored
body is `pyStrip` of the match's raw body, and the raw body is the stored body
surrounded by (only) whitespace, so all interior characters are preserved
exactly. -/
theorem c7_entries_are_stripped_bodies (content : String) (k v : List Char)
    (h : (k, v) ∈ parseBlocksL content.data) :
    ∃ m ∈ scanBlocks content.data, v = pyStrip m.code ∧
      ∃ a b, m.code = a ++ v ++ b ∧ a.all isSpaceChar = true ∧ b.all isSpaceChar = true := by
  rcases values_from h with ⟨m, hm, hv⟩
  rcases pyStrip_decomp m.code with ⟨a, b, hdecomp, ha, hb⟩
  exact ⟨m, hm, hv, a, b, by rw [hv]; exact hdecomp, ha, hb⟩

/-- Witness for C7: a concrete entry whose raw body carries surrounding
whitespace that stripping removes. -/
theorem c7_witness :
    ∃ m ∈ scanBlocks ("```py:main.py\n print(1) \n```").data,
      "print(1)".data = pyStrip m.code ∧
      ∃ a b, m.code = a ++ "print(1)".data ++ b ∧
        a.all isSpaceChar = true ∧ b.all isSpaceChar = true :=
  c7_entries_are_stripped_bodies "```py:main.py\n print(1) \n```"
    ("main.py".data) ("print(1)".data) (by decide)

/-- C9 counterexample.  The claim, as stated, includes failures "while
creating its parent directories" among those that do not abort processing.
But `file_path.parent.mkdir(...)` runs *outside* the `try` (sketch.py line
232 before the `try` at 234), so a `mkdir` failure propagates: here the first
entry's `mkdir` fails and `create_files` returns with the exception and no
event at all for the second entry — processing did not continue. -/
theorem c9_counterexample_mkdir_aborts :
    create_files fsBad [("a/x.txt".data, "hi".data), ("b/y.txt".data, "ho".data)] =
      ([], some "permission denied") := by
  decide

/-- C9 (amended).  A failure raised while opening or writing a file (inside
the `try`) is reported for that entry alone and every other entry is still
processed: when all `mkdir`s succeed, `create_files` produces exactly one
event per entry (a failure event exactly for the entries whose write fails)
and no escaped exception.  A failure while creating parent directories,
however, escapes and aborts the processing of all remaining entries. -/
theorem c9_write_failures_reported_per_entry :
    (∀ (fs : FSModel) (entries : List (List Char × List Char)),
      (∀ p ∈ entries, fs.mkdirResult p.1 = Except.ok ()) →
      create_files fs entries = (entries.map (fun p => writeEv fs p.1), none)) ∧
    (∀ (fs : FSModel) (pre : List (List Char × List Char)) (fname content : List Char)
      (rest : List (List Char × List Char)) (e : String),
      (∀ p ∈ pre, fs.mkdirResult p.1 = Except.ok ()) →
      fs.mkdirResult fname = Except.error e →
      create_files fs (pre ++ (fname, content) :: rest) =
        (pre.map (fun p => writeEv fs p.1), some e)) :=
  ⟨create_files_all_mkdir_ok, create_files_mkdir_failure_aborts⟩

/-- Witness for C9 (amended): one failing write among two entries; the failure
is reported for that entry and the other entry is still written. -/
theorem c9_witness :
    create_files fsFlaky [("a.txt".data, "hi".data), ("b.txt".data, "ho".data)] =
      ([WriteEvent.failed ("a.txt".data) "disk full",
        WriteEvent.created ("b.txt".data)], none) := by
  have h := c9_write_failures_reported_per_entry.1 fsFlaky
    [("a.txt".data, "hi".data), ("b.txt".data, "ho".data)]
    (fun p _ => rfl)
  rw [h]
  decide

/-- C4.  Colon form: for a block opening ```` ```py:<path> ```` where `<path>`
has no newline and ends in a dot plus one of the recognized extensions
(`findExt path extListAll = some e`), the path after the colon is mapped to
the stripped block body.  A colon-form path whose extension is outside the
recognized set (here `.rs`) is not recognized and produces no entry. -/
theorem c4_colon_form :
    (∀ (path body e : List Char),
      findExt path extListAll = some e →
      (∀ c ∈ path, c ≠ '\n') →
      (∀ c ∈ body, c ≠ btick) →
      parseBlocksL ("```py:".data ++ (path ++ ('\n' :: (body ++ [btick, btick, btick])))) =
        [(path, pyStrip body)]) ∧
    parse_code_blocks "```rs:main.rs\nlet x = 1\n```" = [] := by
  constructor
  · intro path body e hext hnl hb
    have hnl' : ∀ c ∈ path, notNewline c = true := by
      intro c hc
      simp [notNewline, hnl c hc]
    have hnlf : notNewline '\n' = false := rfl
    obtain ⟨hemem, q, hq, hpath⟩ := findExt_some hext
    have hpathne : path ≠ [] := by rw [hpath]; simp
    have hA : matchA ("py:".data ++ (path ++ ('\n' :: (body ++ [btick, btick, btick])))) =
        none := rfl
    have htakeE : (("py:".data ++ (path ++ ('\n' :: (body ++ [btick, btick, btick])))).takeWhile
        isWordChar).isEmpty = false := rfl
    have htake : ("py:".data ++ (path ++ ('\n' :: (body ++ [btick, btick, btick])))).takeWhile
        isWordChar = "py".data := rfl
    have hdropW : ("py:".data ++ (path ++ ('\n' :: (body ++ [btick, btick, btick])))).dropWhile
        isWordChar = ':' :: (path ++ ('\n' :: (body ++ [btick, btick, btick]))) := rfl
    have hlineT : (path ++ ('\n' :: (body ++ [btick, btick, btick]))).takeWhile notNewline =
        path := takeWhile_append_stop hnl' hnlf
    have hlineD : (path ++ ('\n' :: (body ++ [btick, btick, btick]))).dropWhile notNewline =
        '\n' :: (body ++ [btick, btick, btick]) := dropWhile_append_stop hnl' hnlf
    have hsplit : splitAtFence (body ++ btick :: btick :: btick :: ([] : List Char)) =
        some (body, []) := splitAtFence_append hb
    have hB : matchB ("py:".data ++ (path ++ ('\n' :: (body ++ [btick, btick, btick])))) =
        some (mkColon ("py".data) path e body, []) := by
      rw [matchB, htake, hdropW]
      show matchB3 ("py".data)
        ((path ++ ('\n' :: (body ++ [btick, btick, btick]))).takeWhile notNewline)
        ((path ++ ('\n' :: (body ++ [btick, btick, btick]))).dropWhile notNewline) =
        some (mkColon ("py".data) path e body, [])
      rw [hlineT, hlineD]
      show matchB4 ("py".data) path ('\n' :: (body ++ [btick, btick, btick]))
        (findExt path extListAll) = some (mkColon ("py".data) path e body, [])
      rw [hext]
      show finishBlock3 (mkColon ("py".data) path e)
        (splitAtFence (body ++ [btick, btick, btick])) =
        some (mkColon ("py".data) path e body, [])
      rw [hsplit]
      rfl
    have hfence : isFenceStart
        ("```py:".data ++ (path ++ ('\n' :: (body ++ [btick, btick, btick])))) = true := rfl
    have hdrop3 : ("```py:".data ++ (path ++ ('\n' :: (body ++ [btick, btick, btick])))).drop 3 =
        "py:".data ++ (path ++ ('\n' :: (body ++ [btick, btick, btick]))) := rfl
    have htry : tryMatchAt
        ("```py:".data ++ (path ++ ('\n' :: (body ++ [btick, btick, btick])))) =
        some (mkColon ("py".data) path e body, []) := by
      unfold tryMatchAt
      rw [hfence, hdrop3, hA, hB]
      rfl
    unfold parseBlocksL
    rw [scanBlocks_single htry]
    have hpy : ("py".data : List Char) ≠ [] := by decide
    simp [processMatch, mkColon, hpy, hpathne, dictSet]
  · decide

/-- Witness for C4: the spec's own example ```` ```py:main.py ```` with body
`print(1)` maps `"main.py"` to `"print(1)"`. -/
theorem c4_witness :
    parseBlocksL ("```py:".data ++
        ("main.py".data ++ ('\n' :: ("print(1)".data ++ [btick, btick, btick])))) =
      [("main.py".data, "print(1)".data)] :=
  (c4_colon_form.1 ("main.py".data) ("print(1)".data) ("py".data)
    (by decide) (by decide) (by decide)).trans (by decide)

/-- C3.  Attributed form: for a block opening
```` ```tsx file="<fn>" ```` with a non-empty quote-free quoted path `fn`, the
quoted path is mapped to the stripped block body; in particular (witness) the
block `tsx file="app/page.tsx"` with body `export default function Home(){}`
yields exactly that entry. -/
theorem c3_attributed_form (fn body : List Char)
    (hfne : fn ≠ [])
    (hquote : ∀ c ∈ fn, c ≠ '\"')
    (hb : ∀ c ∈ body, c ≠ btick) :
    parseBlocksL ("```tsx file=\"".data ++
        (fn ++ ('\"' :: '\n' :: (body ++ [btick, btick, btick])))) =
      [(fn, pyStrip body)] := by
  have hq' : ∀ c ∈ fn, notQuote c = true := by
    intro c hc
    simp [notQuote, hquote c hc]
  have hqf : notQuote '\"' = false := rfl
  have htake : ("tsx file=\"".data ++
      (fn ++ ('\"' :: '\n' :: (body ++ [btick, btick, btick])))).takeWhile isWordChar =
      "tsx".data := rfl
  have hdropW : ("tsx file=\"".data ++
      (fn ++ ('\"' :: '\n' :: (body ++ [btick, btick, btick])))).dropWhile isWordChar =
      " file=\"".data ++ (fn ++ ('\"' :: '\n' :: (body ++ [btick, btick, btick]))) := rfl
  have hfnT : (fn ++ ('\"' :: '\n' :: (body ++ [btick, btick, btick]))).takeWhile notQuote =
      fn := takeWhile_append_stop hq' hqf
  have hfnD : (fn ++ ('\"' :: '\n' :: (body ++ [btick, btick, btick]))).dropWhile notQuote =
      '\"' :: '\n' :: (body ++ [btick, btick, btick]) := dropWhile_append_stop hq' hqf
  have hsplit : splitAtFence (body ++ btick :: btick :: btick :: ([] : List Char)) =
      some (body, []) := splitAtFence_append hb
  have hAs : matchA ("tsx file=\"".data ++
      (fn ++ ('\"' :: '\n' :: (body ++ [btick, btick, btick])))) =
      some (mkAttr ("tsx".data) fn body, []) := by
    rw [matchA, htake, hdropW]
    show matchA4 ("tsx".data)
      ((fn ++ ('\"' :: '\n' :: (body ++ [btick, btick, btick]))).takeWhile notQuote)
      ((fn ++ ('\"' :: '\n' :: (body ++ [btick, btick, btick]))).dropWhile notQuote) =
      some (mkAttr ("tsx".data) fn body, [])
    rw [hfnT, hfnD]
    unfold matchA4
    rw [isEmpty_false hfne]
    show finishBlock3 (mkAttr ("tsx".data) fn)
      (splitAtFence (body ++ [btick, btick, btick])) =
      some (mkAttr ("tsx".data) fn body, [])
    rw [hsplit]
    rfl
  have hfence : isFenceStart ("```tsx file=\"".data ++
      (fn ++ ('\"' :: '\n' :: (body ++ [btick, btick, btick])))) = true := rfl
  have hdrop3 : ("```tsx file=\"".data ++
      (fn ++ ('\"' :: '\n' :: (body ++ [btick, btick, btick])))).drop 3 =
      "tsx file=\"".data ++ (fn ++ ('\"' :: '\n' :: (body ++ [btick, btick, btick]))) := rfl
  have htry : tryMatchAt ("```tsx file=\"".data ++
      (fn ++ ('\"' :: '\n' :: (body ++ [btick, btick, btick])))) =
      some (mkAttr ("tsx".data) fn body, []) := by
    unfold tryMatchAt
    rw [hfence, hdrop3, hAs]
    rfl
  unfold parseBlocksL
  rw [scanBlocks_single htry]
  have htsx : ("tsx".data : List Char) ≠ [] := by decide
  simp [processMatch, mkAttr, htsx, hfne, dictSet]

/-- Witness for C3: the spec's own example block `tsx file="app/page.tsx"`
with body `export default function Home(){}` maps `"app/page.tsx"` to exactly
that body. -/
theorem c3_witness :
    parseBlocksL ("```tsx file=\"".data ++
        ("app/page.tsx".data ++ ('\"' :: '\n' ::
          ("export default function Home()\x7b\x7d\n".data ++ [btick, btick, btick])))) =
      [("app/page.tsx".data, "export default function Home()\x7b\x7d".data)] :=
  (c3_attributed_form ("app/page.tsx".data)
    ("export default function Home()\x7b\x7d\n".data)
    (by decide) (by decide) (by decide)).trans (by decide)

/-- C5.  Direct-filename form: for a block whose opening fence is a bare path
(no whitespace, no colon — so neither of the first two alternatives can match
— and no newline) ending in a dot plus a recognized extension, the fence line
itself, verbatim, is the filename of the entry. -/
theorem c5_direct_filename_form (path body e : List Char)
    (hext : findExt path extListAll = some e)
    (hnl : ∀ c ∈ path, c ≠ '\n')
    (hsp : ∀ c ∈ path, isSpaceChar c = false)
    (hcol : ∀ c ∈ path, c ≠ ':')
    (hb : ∀ c ∈ body, c ≠ btick) :
    parseBlocksL ("```".data ++ (path ++ ('\n' :: (body ++ [btick, btick, btick])))) =
      [(path, pyStrip body)] := by
  have hnl' : ∀ c ∈ path, notNewline c = true := by
    intro c hc
    simp [notNewline, hnl c hc]
  have hnlf : notNewline '\n' = false := rfl
  obtain ⟨hemem, q, hq, hpath⟩ := findExt_some hext
  have hpathne : path ≠ [] := by rw [hpath]; simp
  have hdotmem : '.' ∈ path := by
    rw [hpath]
    exact List.mem_append_right q (List.mem_cons_self _ _)
  have hdot : ∃ c ∈ path, isWordChar c = false := ⟨'.', hdotmem, rfl⟩
  have hlineT : (path ++ ('\n' :: (body ++ [btick, btick, btick]))).takeWhile notNewline =
      path := takeWhile_append_stop hnl' hnlf
  have hlineD : (path ++ ('\n' :: (body ++ [btick, btick, btick]))).dropWhile notNewline =
      '\n' :: (body ++ [btick, btick, btick]) := dropWhile_append_stop hnl' hnlf
  have hsplit : splitAtFence (body ++ btick :: btick :: btick :: ([] : List Char)) =
      some (body, []) := splitAtFence_append hb
  obtain ⟨d, dt, hd⟩ : ∃ d dt, path.dropWhile isWordChar = d :: dt := by
    rcases hdw : path.dropWhile isWordChar with _ | ⟨d, dt⟩
    · exact absurd hdw (dropWhile_ne_nil_of_ex hdot)
    · exact ⟨d, dt, rfl⟩
  obtain ⟨hdmem, -⟩ := dropWhile_head_mem hd
  have hAn : matchA (path ++ ('\n' :: (body ++ [btick, btick, btick]))) = none := by
    rw [matchA, takeWhile_append_ex _ hdot, dropWhile_append_ex _ hdot, hd,
      List.cons_append]
    exact matchA2_not_space (hsp d hdmem)
  have hBn : matchB (path ++ ('\n' :: (body ++ [btick, btick, btick]))) = none := by
    rw [matchB, takeWhile_append_ex _ hdot, dropWhile_append_ex _ hdot, hd,
      List.cons_append]
    exact matchB2_not_colon (hcol d hdmem)
  have hC : matchC (path ++ ('\n' :: (body ++ [btick, btick, btick]))) =
      some (mkDirect path e body, []) := by
    rw [matchC, hlineT, hlineD, hext]
    show finishBlock3 (mkDirect path e)
      (splitAtFence (body ++ [btick, btick, btick])) =
      some (mkDirect path e body, [])
    rw [hsplit]
    rfl
  have hfence : isFenceStart
      ("```".data ++ (path ++ ('\n' :: (body ++ [btick, btick, btick])))) = true := rfl
  have hdrop3 : ("```".data ++ (path ++ ('\n' :: (body ++ [btick, btick, btick])))).drop 3 =
      path ++ ('\n' :: (body ++ [btick, btick, btick])) := rfl
  have htry : tryMatchAt
      ("```".data ++ (path ++ ('\n' :: (body ++ [btick, btick, btick])))) =
      some (mkDirect path e body, []) := by
    unfold tryMatchAt
    rw [hfence, hdrop3, hAn, hBn, hC]
    rfl
  unfold parseBlocksL
  rw [scanBlocks_single htry]
  simp [processMatch, mkDirect, hpathne, dictSet]

/-- Witness for C5: the spec's own example ```` ```components/square.tsx ````
yields an entry keyed by the fence line verbatim. -/
theorem c5_witness :
    parseBlocksL ("```".data ++
        ("components/square.tsx".data ++ ('\n' :: ("...\n".data ++ [btick, btick, btick])))) =
      [("components/square.tsx".data, "...".data)] :=
  (c5_direct_filename_form ("components/square.tsx".data) ("...\n".data) ("tsx".data)
    (by decide) (by decide) (by decide) (by decide) (by decide)).trans (by decide)

/-- C6.  A block with no closing fence contributes nothing: for a document
that opens a recognizable ```` ```py:main.py ```` block and then contains no
triple backtick at all (in particular an unterminated block at end of
document), the result is empty.  And the closing fence is matched
non-greedily: with two blocks in sequence, each body extends only to its own
nearest closing fence, so both entries appear separately (a greedy match
would have swallowed the first closing fence and produced a single entry). -/
theorem c6_unterminated_excluded_nongreedy :
    (∀ b : List Char, (∀ c ∈ b, c ≠ btick) →
      parseBlocksL ("```py:main.py\n".data ++ b) = []) ∧
    parse_code_blocks "```py:a.py\nX\n```\n\n```py:b.py\nY\n```" =
      [("a.py", "X"), ("b.py", "Y")] := by
  constructor
  · intro b hb
    have hnone : ∀ n, tryMatchAt (("```py:main.py\n".data ++ b).drop n) = none := by
      intro n
      by_cases hn : n < 14
      · interval_cases n
        · -- position 0: the fence matches a header but there is no closing fence
          have hsplit : splitAtFence b = none := splitAtFence_none hb
          have hA : matchA ("py:main.py\n".data ++ b) = none := rfl
          have hB : matchB ("py:main.py\n".data ++ b) = none := by
            rw [matchB,
              show ("py:main.py\n".data ++ b).takeWhile isWordChar = "py".data from rfl,
              show ("py:main.py\n".data ++ b).dropWhile isWordChar =
                ':' :: ("main.py\n".data ++ b) from rfl]
            show matchB3 ("py".data) (("main.py\n".data ++ b).takeWhile notNewline)
              (("main.py\n".data ++ b).dropWhile notNewline) = none
            rw [show ("main.py\n".data ++ b).takeWhile notNewline = "main.py".data from rfl,
              show ("main.py\n".data ++ b).dropWhile notNewline = '\n' :: b from rfl]
            show matchB4 ("py".data) ("main.py".data) ('\n' :: b)
              (findExt ("main.py".data) extListAll) = none
            rw [show findExt ("main.py".data) extListAll = some ("py".data) from by decide]
            show finishBlock3 (mkColon ("py".data) ("main.py".data) ("py".data))
              (splitAtFence b) = none
            rw [hsplit]
            rfl
          have hC : matchC ("py:main.py\n".data ++ b) = none := by
            rw [matchC,
              show ("py:main.py\n".data ++ b).takeWhile notNewline =
                "py:main.py".data from rfl,
              show ("py:main.py\n".data ++ b).dropWhile notNewline = '\n' :: b from rfl,
              show findExt ("py:main.py".data) extListAll = some ("py".data) from by decide]
            show finishBlock3 (mkDirect ("py:main.py".data) ("py".data))
              (splitAtFence b) = none
            rw [hsplit]
            rfl
          unfold tryMatchAt
          rw [List.drop_zero,
            show isFenceStart ("```py:main.py\n".data ++ b) = true from rfl,
            show ("```py:main.py\n".data ++ b).drop 3 = "py:main.py\n".data ++ b from rfl,
            hA, hB, hC]
          rfl
        · rfl
        · rfl
        · rfl
        · rfl
        · rfl
        · rfl
        · rfl
        · rfl
        · rfl
        · rfl
        · rfl
        · exact tryMatchAt_not_fence (isFenceStart_cons_false (by decide))
        · exact tryMatchAt_not_fence (isFenceStart_cons_false (by decide))
      · obtain ⟨k, rfl⟩ : ∃ k, n = 14 + k := ⟨n - 14, by omega⟩
        rw [show (14 : Nat) + k = ("```py:main.py\n".data).length + k from rfl,
          List.drop_append k]
        exact tryMatchAt_no_btick (fun c hc => hb c (List.mem_of_mem_drop hc))
    unfold parseBlocksL scanBlocks
    rw [scanAux_all_none _ _ hnone]
    rfl
  · decide

/-- Witness for C6: a concrete unterminated ```` ```py:main.py ```` block at
end of document produces no entry. -/
theorem c6_witness :
    parseBlocksL ("```py:main.py\n".data ++ "print(1)\n".data) = [] :=
  c6_unterminated_excluded_nongreedy.1 ("print(1)\n".data) (by decide)

/-- C10.  A block with an explicit filename and an empty or whitespace-only
body still gets an entry, mapped to the empty string: generally for the colon
form with any all-whitespace body, and concretely for the attributed and
direct forms with empty bodies.  (The non-empty-body requirement applies only
to the language-only fallback, which never checks explicit filenames.) -/
theorem c10_explicit_filename_empty_body :
    (∀ ws : List Char, ws.all isSpaceChar = true →
      parseBlocksL ("```py:main.py\n".data ++ (ws ++ [btick, btick, btick])) =
        [("main.py".data, [])]) ∧
    parse_code_blocks "```tsx file=\"a.tsx\"\n```" = [("a.tsx", "")] ∧
    parse_code_blocks "```app/x.ts\n```" = [("app/x.ts", "")] := by
  refine ⟨?_, by decide, by decide⟩
  intro ws hws
  have hwsb : ∀ c ∈ ws, c ≠ btick :=
    fun c hc => space_ne_btick (List.all_eq_true.mp hws c hc)
  have hsplit : splitAtFence (ws ++ btick :: btick :: btick :: ([] : List Char)) =
      some (ws, []) := splitAtFence_append hwsb
  have hA : matchA ("py:main.py\n".data ++ (ws ++ [btick, btick, btick])) = none := rfl
  have hB : matchB ("py:main.py\n".data ++ (ws ++ [btick, btick, btick])) =
      some (mkColon ("py".data) ("main.py".data) ("py".data) ws, []) := by
    rw [matchB,
      show ("py:main.py\n".data ++ (ws ++ [btick, btick, btick])).takeWhile isWordChar =
        "py".data from rfl,
      show ("py:main.py\n".data ++ (ws ++ [btick, btick, btick])).dropWhile isWordChar =
        ':' :: ("main.py\n".data ++ (ws ++ [btick, btick, btick])) from rfl]
    show matchB3 ("py".data)
      (("main.py\n".data ++ (ws ++ [btick, btick, btick])).takeWhile notNewline)
      (("main.py\n".data ++ (ws ++ [btick, btick, btick])).dropWhile notNewline) =
      some (mkColon ("py".data) ("main.py".data) ("py".data) ws, [])
    rw [show ("main.py\n".data ++ (ws ++ [btick, btick, btick])).takeWhile notNewline =
        "main.py".data from rfl,
      show ("main.py\n".data ++ (ws ++ [btick, btick, btick])).dropWhile notNewline =
        '\n' :: (ws ++ [btick, btick, btick]) from rfl]
    show matchB4 ("py".data) ("main.py".data) ('\n' :: (ws ++ [btick, btick, btick]))
      (findExt ("main.py".data) extListAll) =
      some (mkColon ("py".data) ("main.py".data) ("py".data) ws, [])
    rw [show findExt ("main.py".data) extListAll = some ("py".data) from by decide]
    show finishBlock3 (mkColon ("py".data) ("main.py".data) ("py".data))
      (splitAtFence (ws ++ [btick, btick, btick])) =
      some (mkColon ("py".data) ("main.py".data) ("py".data) ws, [])
    rw [hsplit]
    rfl
  have htry : tryMatchAt ("```py:main.py\n".data ++ (ws ++ [btick, btick, btick])) =
      some (mkColon ("py".data) ("main.py".data) ("py".data) ws, []) := by
    unfold tryMatchAt
    rw [show isFenceStart ("```py:main.py\n".data ++ (ws ++ [btick, btick, btick])) =
        true from rfl,
      show ("```py:main.py\n".data ++ (ws ++ [btick, btick, btick])).drop 3 =
        "py:main.py\n".data ++ (ws ++ [btick, btick, btick]) from rfl,
      hA, hB]
    rfl
  unfold parseBlocksL
  rw [scanBlocks_single htry]
  have hpy : ("py".data : List Char) ≠ [] := by decide
  have hmain : ("main.py".data : List Char) ≠ [] := by decide
  simp [processMatch, mkColon, hpy, hmain, dictSet, pyStrip_all_space hws]

/-- Witness for C10: a colon-form block whose body is three spaces and a
newline maps its filename to the empty string. -/
theorem c10_witness :
    parseBlocksL ("```py:main.py\n".data ++ ("   \n".data ++ [btick, btick, btick])) =
      [("main.py".data, [])] :=
  c10_explicit_filename_empty_body.1 ("   \n".data) (by decide)

end AnvilSketch
